import Mathlib

/-!
Verification of the MemoDiary client (`static/script.js`) against its
specification.  The repository ships two near-identical copies of the
script; where they differ (the `data:` payload trim and the HTML escaping
in `formatMessage`) both are modelled and the difference is noted at the
definition.  JavaScript strings are modelled as `List Char`; the DOM, the
network and the audio engines appear only through the state fields the
claims inspect.
-/

namespace MemoDiary

/-- The stream events decoded by the `while (!done)` loop of
`sendMessageToAI`: a `session_id` update, a text delta appended to the
running assistant message, or the end-of-stream completion signalled by the
reader. -/
inductive SseEvent where
  | sessionIdEvt (payload : List Char) : SseEvent
  | textDelta (payload : List Char) : SseEvent
  | doneEvt : SseEvent
deriving DecidableEq

/-- JavaScript `chunk.split('\n\n')` — split on the two-character separator, leftmost,
non-overlapping, keeping empty pieces, exactly as JavaScript `split` does. -/
def blocksOf : List Char → List (List Char)
  | '\n' :: '\n' :: rest => [] :: blocksOf rest
  | c :: rest =>
    match blocksOf rest with
    | [] => [[c]]
    | h :: t => (c :: h) :: t
  | [] => [[]]

/-- JavaScript `block.split('\n')` — split on the single newline character. -/
def splitNl : List Char → List (List Char)
  | '\n' :: rest => [] :: splitNl rest
  | c :: rest =>
    match splitNl rest with
    | [] => [[c]]
    | h :: t => (c :: h) :: t
  | [] => [[]]

/-- JavaScript `.trim()`: drop whitespace from both ends. -/
def trimChars (l : List Char) : List Char :=
  ((l.dropWhile Char.isWhitespace).reverse.dropWhile Char.isWhitespace).reverse

/-- The 7-character literal `'event: '`. -/
def eventRowStart : List Char := ['e', 'v', 'e', 'n', 't', ':', ' ']

/-- The 6-character literal `'data: '`. -/
def dataRowStart : List Char := ['d', 'a', 't', 'a', ':', ' ']

/-- Is the row an `event: ` row — `row.startsWith('event: ')`. -/
def isEventRow (row : List Char) : Bool := eventRowStart.isPrefixOf row

/-- Is the row a `data: ` row — `row.startsWith('data: ')`. -/
def isDataRow (row : List Char) : Bool := dataRowStart.isPrefixOf row

/-- The two mutable locals of the per-block row loop of `sendMessageToAI`:
`let eventType = 'message'; let dataContent = '';`. -/
structure BlockParse where
  eventType : List Char
  dataContent : List Char
deriving DecidableEq

/-- One iteration of `for (const row of blockLines)` (script.js, first copy,
lines 518-524): an `event: ` row assigns
`eventType = row.replace('event: ', '').trim()` and a `data: ` row assigns
`dataContent = row.replace('data: ', '')` — an assignment, not an append, so
a later matching row overwrites an earlier one.  `replace` of the leading
literal equals dropping the 7- resp. 6-character prefix.  (The second copy
of the script additionally trims the data payload — see `parseRowTrim`.) -/
def parseRow (acc : BlockParse) (row : List Char) : BlockParse :=
  if isEventRow row then
    { acc with eventType := trimChars (row.drop 7) }
  else if isDataRow row then
    { acc with dataContent := row.drop 6 }
  else acc

/-- The whole row loop over one block. -/
def parseRows (rows : List (List Char)) : BlockParse :=
  rows.foldl parseRow { eventType := "message".data, dataContent := [] }

/-- Events produced from one block (script.js lines 504-543): blank blocks
are skipped (`if (!block.trim()) continue`); a `session_id` event type with a
non-empty payload updates the session and contributes no text; the `[DONE]`
sentinel and empty payloads are suppressed; every other payload becomes a
text delta appended verbatim to `aiFullText`. -/
def blockEvents (block : List Char) : List SseEvent :=
  if trimChars block = [] then []
  else
    let p := parseRows (splitNl block)
    if p.eventType = "session_id".data then
      if p.dataContent ≠ [] then [SseEvent.sessionIdEvt p.dataContent] else []
    else if p.dataContent = "[DONE]".data then []
    else if p.dataContent = [] then []
    else [SseEvent.textDelta p.dataContent]

/-- One iteration of the row loop in the SECOND copy of the script (lines
1335-1341): identical to `parseRow` except that the data payload is also
trimmed — `dataContent = row.replace('data: ', '').trim()` (line 1339). -/
def parseRowTrim (acc : BlockParse) (row : List Char) : BlockParse :=
  if isEventRow row then
    { acc with eventType := trimChars (row.drop 7) }
  else if isDataRow row then
    { acc with dataContent := trimChars (row.drop 6) }
  else acc

/-- The whole row loop over one block, second copy. -/
def parseRowsTrim (rows : List (List Char)) : BlockParse :=
  rows.foldl parseRowTrim { eventType := "message".data, dataContent := [] }

/-- Events produced from one block by the SECOND copy of the script (lines
1321-1360): the same dispatch as `blockEvents` over the trimmed payload. -/
def blockEventsTrim (block : List Char) : List SseEvent :=
  if trimChars block = [] then []
  else
    let p := parseRowsTrim (splitNl block)
    if p.eventType = "session_id".data then
      if p.dataContent ≠ [] then [SseEvent.sessionIdEvt p.dataContent] else []
    else if p.dataContent = "[DONE]".data then []
    else if p.dataContent = [] then []
    else [SseEvent.textDelta p.dataContent]

/-- Events produced from one `reader.read()` chunk: the chunk alone is split
on `'\n\n'` and every piece is handled immediately.  The loop keeps no
carry-over buffer from one read to the next. -/
def chunkEvents (chunk : List Char) : List SseEvent :=
  (blocksOf chunk).flatMap blockEvents

/-- The stream-decoding loop of `sendMessageToAI` over the list of chunks the
reader delivers, with the completion event once the reader reports done. -/
def decodeStream (chunks : List (List Char)) : List SseEvent :=
  (chunks.flatMap chunkEvents) ++ [SseEvent.doneEvt]

/-- The running assistant message `aiFullText`: the concatenation, in order,
of all text-delta payloads. -/
def runText (events : List SseEvent) : List Char :=
  events.flatMap (fun e =>
    match e with
    | SseEvent.textDelta s => s
    | _ => [])

/-- The last row of `rows` satisfying `p`, if any — the row whose assignment
survives the row loop. -/
def lastSuch (p : List Char → Bool) : List (List Char) → Option (List Char)
  | [] => none
  | r :: rest =>
    match lastSuch p rest with
    | some x => some x
    | none => if p r then some r else none

/-- Modelled from the spec words of C2, for comparison with `parseRows`: the
payload as the concatenation of all `data:` lines of the block, minus their
prefixes. -/
def specDataConcat (rows : List (List Char)) : List Char :=
  rows.flatMap (fun row => if isDataRow row then row.drop 6 else [])

/-! ## Session identifier persistence (claim C8)

`localStorage` is modelled as an association list; `setItem` prepends and
`getItem` returns the most recent binding. -/

/-- Client-side key/value storage. -/
abbrev Store := List (String × String)

/-- Model of `localStorage.setItem(key, value)`. -/
def setItem (store : Store) (key value : String) : Store :=
  (key, value) :: store

/-- Model of `localStorage.getItem(key)`. -/
def getItem (store : Store) (key : String) : Option String :=
  (store.find? (fun kv => kv.1 = key)).map (fun kv => kv.2)

/-- The key read at process start:
`let sessionId = localStorage.getItem('memodiary_user_id')` (script.js
line 2). -/
def sessionLoadKey : String := "memodiary_user_id"

/-- The key written when a `session_id` stream event arrives:
`localStorage.setItem('memo_session_id', sessionId)` (script.js line 530). -/
def sessionStoreKey : String := "memo_session_id"

/-- The in-memory `sessionId` global together with the persistent storage. -/
structure SessionState where
  sessionId : Option String
  store : Store
deriving DecidableEq

/-- Effect of one decoded stream event on the session state (script.js lines
526-533): only a `session_id` event reassigns `sessionId` and writes it to
storage under `sessionStoreKey`; every other event leaves both alone. -/
def applyEvent (st : SessionState) : SseEvent → SessionState
  | SseEvent.sessionIdEvt payload =>
      { sessionId := some (String.mk payload),
        store := setItem st.store sessionStoreKey (String.mk payload) }
  | _ => st

/-- All events of one stream applied in order. -/
def applyEvents (st : SessionState) (es : List SseEvent) : SessionState :=
  es.foldl applyEvent st

/-- The session id the next process start would load (script.js lines 1-6). -/
def loadSessionId (store : Store) : Option String :=
  getItem store sessionLoadKey

/-! ## The submission gate (claims C6, C7, C9)

State of the globals read and written by `handleTextInput`,
`submitVoiceInput`, `retryLastMessage` and the entry guard of
`sendMessageToAI` (script.js, second copy, lines 868-874).  `sentAt` is
model instrumentation: the log of calls into `sendMessageToAI`, each with
the wall-clock instant at which the submission arrived (the code keeps no
such log; everything else mirrors a global of the script). -/

/-- Constant `COOLDOWN_MS = 2000` (script.js line 874, the copy cited by the
claims on the gate). -/
def COOLDOWN_MS : Nat := 2000

/-- The gate globals. `statusBreather` stands for the status text set by a
cooldown rejection (the only observable effect of that branch). -/
structure UIState where
  isProcessing : Bool
  lastRequestTime : Nat
  lastUserText : String
  transcriptBuffer : String
  latestInterim : String
  isListening : Bool
  statusBreather : Bool
  sentAt : List (Nat × String)
deriving DecidableEq

/-- The guard at the top of `sendMessageToAI` (script.js lines 1266-1269):
a call while an exchange is in flight returns at once; otherwise the
exchange starts (`isProcessing = true`) and the message goes to the backend
(recorded in `sentAt` with the arrival instant `now`). -/
def sendMessageEntry (st : UIState) (now : Nat) (msg : String) : UIState :=
  if st.isProcessing then st
  else { st with isProcessing := true, sentAt := st.sentAt ++ [(now, msg)] }

/-- Model of `const text = userInput.value.trim()` (script.js line 1001). -/
def typedText (v : String) : String := String.mk (trimChars v.data)

/-- Function `handleTextInput` (script.js lines 1000-1024) on typed input `v` at
instant `now`: the cooldown guard first (its rejection only sets the status
text), then the validation `!text || text.length < 2`, then the in-flight
guard; on acceptance `lastRequestTime` and `lastUserText` are recorded and
the text is submitted.  JavaScript computes `now - lastRequestTime` on
signed numbers; truncated `Nat` subtraction rejects in exactly the same
cases. -/
def handleTextInput (st : UIState) (now : Nat) (v : String) : UIState :=
  let text := typedText v
  if now - st.lastRequestTime < COOLDOWN_MS then { st with statusBreather := true }
  else if text = "" ∨ text.length < 2 then st
  else if st.isProcessing then st
  else sendMessageEntry { st with lastRequestTime := now, lastUserText := text } now text

/-- JavaScript `replace(/\s+/g, ' ')`: collapse every whitespace run to a
single space. -/
def collapseWs : List Char → List Char
  | [] => []
  | c :: rest =>
    if c.isWhitespace then
      match collapseWs rest with
      | ' ' :: t => ' ' :: t
      | t => ' ' :: t
    else c :: collapseWs rest

/-- The utterance `submitVoiceInput` builds (script.js line 1073):
`(transcriptBuffer + ' ' + latestInterim).replace(/\s+/g, ' ').trim()`. -/
def voiceText (st : UIState) : String :=
  String.mk (trimChars (collapseWs (st.transcriptBuffer ++ " " ++ st.latestInterim).data))

/-- Function `submitVoiceInput` (script.js lines 1070-1090) at arrival instant `now`
(the function itself never reads the clock): combine the finalized and the
pending interim transcript, clear the capture state, and submit whenever the
combined text is non-empty — `if (text.length > 0)`, so a single character
suffices.  Neither `lastRequestTime` nor `lastUserText` is touched. -/
def submitVoiceInput (st : UIState) (now : Nat) : UIState :=
  let text := voiceText st
  let st1 := { st with transcriptBuffer := "", latestInterim := "", isListening := false }
  if text.length > 0 then sendMessageEntry st1 now text else st1

/-- Function `window.retryLastMessage` (script.js lines 799-814): when a last typed
utterance is recorded, re-submit exactly that text. -/
def retryLastMessage (st : UIState) (now : Nat) : UIState :=
  if st.lastUserText ≠ "" then sendMessageEntry st now st.lastUserText else st

/-- The submission-relevant occurrences an execution interleaves: a typed
submission, a voice submission (the capture buffers it finds are carried by
the occurrence), and the completion of the in-flight exchange (the `finally`
block of `sendMessageToAI` clearing the busy flag). -/
inductive GateEvent where
  | typed (now : Nat) (v : String)
  | voice (now : Nat) (buf interim : String)
  | finished
deriving DecidableEq

def gateStep (st : UIState) : GateEvent → UIState
  | GateEvent.typed now v => handleTextInput st now v
  | GateEvent.voice now buf interim =>
      submitVoiceInput { st with transcriptBuffer := buf, latestInterim := interim } now
  | GateEvent.finished => { st with isProcessing := false }

def runGate (st : UIState) (es : List GateEvent) : UIState :=
  es.foldl gateStep st

/-- The gate globals at page load. -/
def initGate : UIState :=
  { isProcessing := false, lastRequestTime := 0, lastUserText := "",
    transcriptBuffer := "", latestInterim := "", isListening := false,
    statusBreather := false, sentAt := [] }

/-- Arrival instant of an occurrence, when it has one. -/
def eventTime : GateEvent → Option Nat
  | GateEvent.typed now _ => some now
  | GateEvent.voice now _ _ => some now
  | GateEvent.finished => none

def eventTimes (es : List GateEvent) : List Nat :=
  es.filterMap eventTime

/-- Do consecutive accepted submissions always lie at least `COOLDOWN_MS`
apart? -/
def cooldownSepB : List (Nat × String) → Bool
  | [] => true
  | [_] => true
  | a :: b :: rest => decide (a.1 + COOLDOWN_MS ≤ b.1) && cooldownSepB (b :: rest)

/-- Are the arrival instants nondecreasing (a monotone wall clock)? -/
def timesSorted : List Nat → Bool
  | [] => true
  | [_] => true
  | a :: b :: rest => decide (a ≤ b) && timesSorted (b :: rest)

/-! ## One execution of `sendMessageToAI` (claims C3, C4)

The state the claims inspect: the busy flag, the input affordances, the
typing indicator, and the audio machinery (`audioQueue`, the playing
`window.currentAudio` element, the browser speech synthesis).  DOM bubbles,
status text and the timer id stay outside the model. -/

structure AppState where
  isProcessing : Bool
  inputEnabled : Bool
  typingShown : Bool
  audioQueue : List (List Char)
  audioPlaying : Bool
  speechSynthActive : Bool
deriving DecidableEq

/-- The entry of `sendMessageToAI` up to issuing the fetch (script.js lines
449-464): set the busy flag, disable the inputs (`setInputState(false)`),
show the typing indicator and arm the 60s abort timer.  No statement on this
path touches `audioQueue`, `window.currentAudio` or
`window.speechSynthesis`. -/
def sendStart (st : AppState) : AppState :=
  { st with isProcessing := true, inputEnabled := false, typingShown := true }

/-- How the `try` block of one execution ends: the stream is consumed to the
end, or an error is thrown — a non-2xx status (429, 503 and the generic
`ERR_<status>` all throw), a network failure of the fetch itself, the abort
of the 60s timer, or an exception while decoding the stream mid-way. -/
inductive FetchOutcome where
  | success
  | httpError (status : Nat)
  | networkError
  | abortTimeout
  | midStreamThrow
deriving DecidableEq

/-- The `try` block after `sendStart` (script.js lines 466-575): on success
the typing indicator was removed when the first data arrived; every other
outcome leaves the block by throwing. -/
def tryBranch (st : AppState) : FetchOutcome → AppState
  | FetchOutcome.success => { st with typingShown := false }
  | _ => st

/-- The `catch` block (script.js lines 577-633): removes the indicator and
renders the error bubble with its retry button; it does not touch the busy
flag, the inputs or the audio machinery. -/
def catchBranch (st : AppState) : AppState :=
  { st with typingShown := false }

/-- One full execution of `sendMessageToAI` (script.js lines 448-648): the
in-flight guard, the body, the `catch` on every thrown error, and the
`finally` block — which always runs and always does
`isProcessing = false; setInputState(true)`. -/
def sendMessageToAI (st : AppState) (o : FetchOutcome) : AppState :=
  if st.isProcessing then st
  else
    let st1 := sendStart st
    let st2 :=
      match o with
      | FetchOutcome.success => tryBranch st1 o
      | _ => catchBranch (tryBranch st1 o)
    { st2 with isProcessing := false, inputEnabled := true }

/-! ## The speech playback queue (claims C5)

`processAudioQueue` (script.js lines 403-425) dequeues one segment at a
time; `playAudioChunk` (lines 427-446) resolves its promise on `onended`,
or — on `onerror` — starts `fallbackToBrowserTTS(text)` and resolves
immediately, without awaiting the fallback.  The drain is modelled on a
discrete time line: each segment gets the instant its backend audio starts,
the instant its promise resolves (when the `finally` block starts the next
segment), and, for a failed segment, the instant its fallback browser
synthesis ends. -/

/-- What happens to one dequeued segment: the backend audio plays for `dur`
units and ends, or the audio element errors at once and the fallback
synthesis of the same text runs for `fbDur` units. -/
inductive ChunkResult where
  | ok (dur : Nat)
  | err (fbDur : Nat)
deriving DecidableEq

/-- Timing of one segment in the drain. -/
structure SegTiming where
  start : Nat
  resolve : Nat
  fbEnd : Option Nat
deriving DecidableEq

/-- The unmuted drain of the audio queue starting at instant `t`: on success
the next segment starts when `onended` resolves; on error the fallback is
started and the promise resolves at the same instant, so the next segment
starts while the fallback is still speaking. -/
def processAudioQueue (t : Nat) : List ChunkResult → List SegTiming
  | [] => []
  | ChunkResult.ok dur :: rest =>
      ⟨t, t + dur, none⟩ :: processAudioQueue (t + dur) rest
  | ChunkResult.err fbDur :: rest =>
      ⟨t, t, some (t + fbDur)⟩ :: processAudioQueue t rest

/-- The instant at which segment audio is fully over, the fallback synthesis
included. -/
def segFinish (s : SegTiming) : Nat :=
  match s.fbEnd with
  | some e => e
  | none => s.resolve

/-! ## `formatMessage` (claim C10)

The script ships two versions.  The second (lines 1569-1588) escapes `&`,
`<`, `>`, the double quote and the apostrophe before its markdown-lite rewriting; the first (lines
752-768) performs no escaping and additionally rewrites `[text](url)` links.
The regex passes are modelled as left-to-right scanners: a lazy group
`(.*?)` matches the shortest stretch of non-newline characters up to the
closing literal, and a failed match advances the scan by one character,
exactly as a global JavaScript regex replace does. -/

/-- The lazy close of `/\*(.*?)\*/`: the shortest prefix containing neither
`*` nor a newline, followed by the closing `*`. -/
def starClose : List Char → Option (List Char × List Char)
  | [] => none
  | c :: rest =>
    if c = '*' then some ([], rest)
    else if c = '\n' then none
    else (starClose rest).map (fun p => (c :: p.1, p.2))

theorem starClose_some :
    ∀ {l a b : List Char}, starClose l = some (a, b) →
      l = a ++ '*' :: b ∧ '*' ∉ a := by
  intro l
  induction l with
  | nil => intro a b h; simp [starClose] at h
  | cons c rest ih =>
    intro a b h
    by_cases hc : c = '*'
    · subst hc
      simp [starClose] at h
      obtain ⟨rfl, rfl⟩ := h
      simp
    · by_cases hn : c = '\n'
      · subst hn; simp [starClose, hc] at h
      · simp [starClose, hc, hn, Option.map_eq_some'] at h
        obtain ⟨p1, hp, rfl⟩ := h
        obtain ⟨hre, hrm⟩ := ih hp
        subst hre
        refine ⟨by simp, ?_⟩
        intro hx
        rcases List.mem_cons.mp hx with h1 | h1
        · exact hc h1.symm
        · exact hrm h1

/-- The lazy close of `/\*\*(.*?)\*\*/`: the shortest prefix of non-newline
characters up to the next `**`. -/
def starStarClose : List Char → Option (List Char × List Char)
  | [] => none
  | [_] => none
  | c1 :: c2 :: rest =>
    if c1 = '*' ∧ c2 = '*' then some ([], rest)
    else if c1 = '\n' then none
    else (starStarClose (c2 :: rest)).map (fun p => (c1 :: p.1, p.2))

theorem starStarClose_some :
    ∀ {l a b : List Char}, starStarClose l = some (a, b) →
      l = a ++ '*' :: '*' :: b := by
  intro l
  induction l with
  | nil => intro a b h; simp [starStarClose] at h
  | cons c1 tail ih =>
    intro a b h
    cases tail with
    | nil => simp [starStarClose] at h
    | cons c2 rest =>
      by_cases hss : c1 = '*' ∧ c2 = '*'
      · obtain ⟨h1, h2⟩ := hss
        subst h1 h2
        simp [starStarClose] at h
        obtain ⟨rfl, rfl⟩ := h
        simp
      · by_cases hn : c1 = '\n'
        · subst hn; simp [starStarClose, hss] at h
        · simp [starStarClose, hss, hn, Option.map_eq_some'] at h
          obtain ⟨p1, hp, rfl⟩ := h
          have hre := ih hp
          simp [hre]

/-- Tag string inserted by the bold pass. -/
def strongOpenTag : List Char := ['<', 's', 't', 'r', 'o', 'n', 'g', '>']

/-- Closing tag string of the bold pass. -/
def strongCloseTag : List Char := ['<', '/', 's', 't', 'r', 'o', 'n', 'g', '>']

/-- Tag string inserted by the italic pass. -/
def emOpenTag : List Char := ['<', 'e', 'm', '>']

/-- Closing tag string of the italic pass. -/
def emCloseTag : List Char := ['<', '/', 'e', 'm', '>']

/-- Tag string inserted by the newline pass. -/
def brTag : List Char := ['<', 'b', 'r', '>']

/-- The bold pass `text.replace(/\*\*(.*?)\*\*/g, '<strong>$1</strong>')`. -/
def boldAux : List Char → List Char
  | [] => []
  | [c] => [c]
  | c1 :: c2 :: rest =>
    if c1 = '*' ∧ c2 = '*' then
      match h : starStarClose rest with
      | some (inr, rest') =>
          strongOpenTag ++ inr ++ strongCloseTag ++ boldAux rest'
      | none => '*' :: boldAux ('*' :: rest)
    else c1 :: boldAux (c2 :: rest)
termination_by l => l.length
decreasing_by
  · have h2 := starStarClose_some h
    subst h2
    simp [List.length_append]
    omega
  · simp
  · simp

/-- The italic pass `formatted.replace(/\*(.*?)\*/g, '<em>$1</em>')`. -/
def italAux : List Char → List Char
  | [] => []
  | c :: rest =>
    if c = '*' then
      match h : starClose rest with
      | some (inr, rest') => emOpenTag ++ inr ++ emCloseTag ++ italAux rest'
      | none => '*' :: italAux rest
    else c :: italAux rest
termination_by l => l.length
decreasing_by
  · have h2 := (starClose_some h).1
    subst h2
    simp [List.length_append]
    omega
  · simp
  · simp

/-- The lazy close of the link-text group `(.*?)\]\(`: up to the first
`](`. -/
def linkTextClose : List Char → Option (List Char × List Char)
  | [] => none
  | [_] => none
  | c1 :: c2 :: rest =>
    if c1 = ']' ∧ c2 = '(' then some ([], rest)
    else if c1 = '\n' then none
    else (linkTextClose (c2 :: rest)).map (fun p => (c1 :: p.1, p.2))

theorem linkTextClose_some :
    ∀ {l a b : List Char}, linkTextClose l = some (a, b) →
      l = a ++ ']' :: '(' :: b := by
  intro l
  induction l with
  | nil => intro a b h; simp [linkTextClose] at h
  | cons c1 tail ih =>
    intro a b h
    cases tail with
    | nil => simp [linkTextClose] at h
    | cons c2 rest =>
      by_cases hss : c1 = ']' ∧ c2 = '('
      · obtain ⟨h1, h2⟩ := hss
        subst h1 h2
        simp [linkTextClose] at h
        obtain ⟨rfl, rfl⟩ := h
        simp
      · by_cases hn : c1 = '\n'
        · subst hn; simp [linkTextClose, hss] at h
        · simp [linkTextClose, hss, hn, Option.map_eq_some'] at h
          obtain ⟨p1, hp, rfl⟩ := h
          have hre := ih hp
          simp [hre]

/-- The lazy close of the link-url group `(.*?)\)`: up to the first `)`. -/
def linkUrlClose : List Char → Option (List Char × List Char)
  | [] => none
  | c :: rest =>
    if c = ')' then some ([], rest)
    else if c = '\n' then none
    else (linkUrlClose rest).map (fun p => (c :: p.1, p.2))

theorem linkUrlClose_some :
    ∀ {l a b : List Char}, linkUrlClose l = some (a, b) →
      l = a ++ ')' :: b := by
  intro l
  induction l with
  | nil => intro a b h; simp [linkUrlClose] at h
  | cons c rest ih =>
    intro a b h
    by_cases hc : c = ')'
    · subst hc
      simp [linkUrlClose] at h
      obtain ⟨rfl, rfl⟩ := h
      simp
    · by_cases hn : c = '\n'
      · subst hn; simp [linkUrlClose, hc] at h
      · simp [linkUrlClose, hc, hn, Option.map_eq_some'] at h
        obtain ⟨p1, hp, rfl⟩ := h
        have hre := ih hp
        subst hre
        simp

/-- The link pass `formatted.replace(/\[(.*?)\]\((.*?)\)/g, '<a href="$2" target="_blank">$1</a>')`
— only in the first, non-escaping `formatMessage`. -/
def linkAux : List Char → List Char
  | [] => []
  | c :: rest =>
    if c = '[' then
      match h1 : linkTextClose rest with
      | some (txt, rest1) =>
        match h2 : linkUrlClose rest1 with
        | some (url, rest2) =>
            "<a href=\"".data ++ url ++ "\" target=\"_blank\">".data ++ txt
              ++ "</a>".data ++ linkAux rest2
        | none => '[' :: linkAux rest
      | none => '[' :: linkAux rest
    else c :: linkAux rest
termination_by l => l.length
decreasing_by
  · have ha := linkTextClose_some h1
    have hb := linkUrlClose_some h2
    subst ha hb
    simp [List.length_append]
    omega
  · simp
  · simp
  · simp

/-- JavaScript `replace(/X/g, repl)` for a single character `X`. -/
def replaceChar (target : Char) (repl : List Char) (l : List Char) : List Char :=
  l.flatMap (fun c => if c = target then repl else [c])

/-- The double-quote character. -/
def quoteChar : Char := Char.ofNat 34

/-- The apostrophe character. -/
def apostChar : Char := Char.ofNat 39

/-- The sanitation of the second `formatMessage` (script.js lines 1573-1578):
five successive global replacements, the ampersand first. -/
def escapeHtml (l : List Char) : List Char :=
  replaceChar apostChar "&#039;".data
    (replaceChar quoteChar "&quot;".data
      (replaceChar '>' "&gt;".data
        (replaceChar '<' "&lt;".data
          (replaceChar '&' "&amp;".data l))))

/-- The newline pass `formatted.replace(/\n/g, '<br>')`. -/
def brPass (l : List Char) : List Char :=
  replaceChar '\n' brTag l

/-- The second `formatMessage` (script.js lines 1569-1588): escape, then
bold, italic and newline rewriting.  (The `if (!text) return ''` guard is
the identity on this pipeline for empty input.) -/
def formatMessage (l : List Char) : List Char :=
  brPass (italAux (boldAux (escapeHtml l)))

/-- The first `formatMessage` (script.js lines 752-768): bold, italic, link
and newline rewriting, with no escaping at all. -/
def formatMessageLegacy (l : List Char) : List Char :=
  brPass (linkAux (italAux (boldAux l)))

/-- The five generated tags, for the inductive sanitation invariant. -/
inductive Tag where
  | sOpen | sClose | eOpen | eClose | br
deriving DecidableEq

def tagChars : Tag → List Char
  | Tag.sOpen => strongOpenTag
  | Tag.sClose => strongCloseTag
  | Tag.eOpen => emOpenTag
  | Tag.eClose => emCloseTag
  | Tag.br => brTag

/-- Strings whose angle brackets occur only as whole formatter-generated
tags: built from plain non-angle characters and the five tags. -/
inductive Ok : List Char → Prop where
  | nil : Ok []
  | plain (c : Char) (l : List Char) : c ≠ '<' → c ≠ '>' → Ok l → Ok (c :: l)
  | tag (t : Tag) (l : List Char) : Ok l → Ok (tagChars t ++ l)

/-! ### Branch equations for the regex scanners -/

theorem boldAux_closed {c1 c2 : Char} {rest inr rest' : List Char}
    (hss : c1 = '*' ∧ c2 = '*') (hsc : starStarClose rest = some (inr, rest')) :
    boldAux (c1 :: c2 :: rest)
      = strongOpenTag ++ inr ++ strongCloseTag ++ boldAux rest' := by
  simp [boldAux, hss]
  split <;> simp_all

theorem boldAux_open {c1 c2 : Char} {rest : List Char}
    (hss : c1 = '*' ∧ c2 = '*') (hsc : starStarClose rest = none) :
    boldAux (c1 :: c2 :: rest) = '*' :: boldAux ('*' :: rest) := by
  simp [boldAux, hss]
  split <;> simp_all

theorem boldAux_cons {c1 c2 : Char} {rest : List Char}
    (hss : ¬(c1 = '*' ∧ c2 = '*')) :
    boldAux (c1 :: c2 :: rest) = c1 :: boldAux (c2 :: rest) := by
  simp [boldAux, hss]

theorem italAux_closed {rest inr rest' : List Char}
    (hsc : starClose rest = some (inr, rest')) :
    italAux ('*' :: rest) = emOpenTag ++ inr ++ emCloseTag ++ italAux rest' := by
  simp [italAux]
  split <;> simp_all

theorem italAux_open {rest : List Char} (hsc : starClose rest = none) :
    italAux ('*' :: rest) = '*' :: italAux rest := by
  simp [italAux]
  split <;> simp_all

theorem italAux_cons {c : Char} {rest : List Char} (hc : c ≠ '*') :
    italAux (c :: rest) = c :: italAux rest := by
  simp [italAux, hc]

/-! ### The sanitation invariant is preserved by every pass -/

theorem ok_append : ∀ {a b : List Char}, Ok a → Ok b → Ok (a ++ b) := by
  intro a b ha hb
  induction ha with
  | nil => simpa using hb
  | plain c l hlt hgt h0 ih => exact Ok.plain c (l ++ b) hlt hgt ih
  | tag t l h0 ih =>
    rw [List.append_assoc]
    exact Ok.tag t (l ++ b) ih

theorem na_ok : ∀ l : List Char, (∀ c ∈ l, c ≠ '<' ∧ c ≠ '>') → Ok l := by
  intro l
  induction l with
  | nil => intro _; exact Ok.nil
  | cons c rest ih =>
    intro h
    obtain ⟨h1, h2⟩ := h c (List.mem_cons_self c rest)
    exact Ok.plain c rest h1 h2 (ih fun d hd => h d (List.mem_cons_of_mem c hd))

theorem mem_replaceChar {c t : Char} {r l : List Char}
    (h : c ∈ replaceChar t r l) : c ∈ r ∨ c ∈ l := by
  simp [replaceChar] at h
  obtain ⟨a, ha, hc⟩ := h
  by_cases hat : a = t
  · simp [hat] at hc
    exact Or.inl hc
  · simp [hat] at hc
    exact Or.inr (hc ▸ ha)

theorem replaceChar_self_not {t : Char} {r : List Char} (h : t ∉ r)
    (l : List Char) : t ∉ replaceChar t r l := by
  intro hmem
  simp [replaceChar] at hmem
  obtain ⟨a, ha, hc⟩ := hmem
  by_cases hat : a = t
  · simp [hat] at hc
    exact h hc
  · simp [hat] at hc
    exact hat hc.symm

theorem not_mem_escapeHtml_lt (l : List Char) : '<' ∉ escapeHtml l := by
  intro h
  unfold escapeHtml at h
  rcases mem_replaceChar h with h1 | h1
  · exact absurd h1 (by decide)
  rcases mem_replaceChar h1 with h2 | h2
  · exact absurd h2 (by decide)
  rcases mem_replaceChar h2 with h3 | h3
  · exact absurd h3 (by decide)
  · exact replaceChar_self_not (by decide) _ h3

theorem not_mem_escapeHtml_gt (l : List Char) : '>' ∉ escapeHtml l := by
  intro h
  unfold escapeHtml at h
  rcases mem_replaceChar h with h1 | h1
  · exact absurd h1 (by decide)
  rcases mem_replaceChar h1 with h2 | h2
  · exact absurd h2 (by decide)
  · exact replaceChar_self_not (by decide) _ h2

theorem escapeHtml_na (l : List Char) :
    ∀ c ∈ escapeHtml l, c ≠ '<' ∧ c ≠ '>' := by
  intro c hc
  constructor
  · rintro rfl; exact not_mem_escapeHtml_lt l hc
  · rintro rfl; exact not_mem_escapeHtml_gt l hc

theorem star_not_in_tag (t : Tag) : '*' ∉ tagChars t := by
  cases t <;> decide

theorem newline_not_in_tag (t : Tag) : '\n' ∉ tagChars t := by
  cases t <;> decide

theorem tag_length_pos (t : Tag) : 1 ≤ (tagChars t).length := by
  cases t <;> decide

theorem ok_tail_plain {c : Char} {l : List Char} (h : Ok (c :: l))
    (hc : c ≠ '<') : Ok l := by
  generalize hgen : c :: l = m at h
  cases h with
  | nil => simp at hgen
  | plain c2 l2 hlt hgt h0 =>
    injection hgen with h1 h2
    subst h1
    subst h2
    exact h0
  | tag t l0 h0 =>
    exfalso
    apply hc
    cases t <;> simp_all [tagChars, strongOpenTag, strongCloseTag, emOpenTag,
      emCloseTag, brTag]

/-- Cutting a sanitized string at a `*` (a character no generated tag
contains) leaves two sanitized halves. -/
theorem ok_split_star :
    ∀ {l : List Char}, Ok l → ∀ a b, l = a ++ '*' :: b → '*' ∉ a →
      Ok a ∧ Ok b := by
  intro l h
  induction h with
  | nil =>
    intro a b heq _
    exact absurd heq (by cases a <;> simp)
  | plain c l0 hlt hgt h0 ih =>
    intro a b heq hmem
    cases a with
    | nil =>
      simp at heq
      obtain ⟨rfl, rfl⟩ := heq
      exact ⟨Ok.nil, h0⟩
    | cons d a2 =>
      simp at heq
      obtain ⟨hcd, heq2⟩ := heq
      subst hcd
      obtain ⟨ha2, hb⟩ := ih a2 b heq2 (fun hx => hmem (List.mem_cons_of_mem c hx))
      exact ⟨Ok.plain c a2 hlt hgt ha2, hb⟩
  | tag t l0 h0 ih =>
    intro a b heq hmem
    rcases List.append_eq_append_iff.mp heq.symm with ⟨mid, h1, h2⟩ | ⟨mid, h1, h2⟩
    · -- the cut would fall inside the tag: only possible right at its end
      cases mid with
      | nil =>
        simp at h1 h2
        subst h1
        refine ⟨?_, ?_⟩
        · simpa using Ok.tag t [] Ok.nil
        · rw [← h2] at h0
          exact ok_tail_plain h0 (by decide)
      | cons e mid2 =>
        exfalso
        apply star_not_in_tag t
        injection h2 with h3 h4
        subst h3
        rw [h1]
        simp
    · -- the tag lies wholly inside the first half
      have hmid : '*' ∉ mid := fun hx => hmem (h1 ▸ List.mem_append_right _ hx)
      obtain ⟨hokm, hokb⟩ := ih mid b h2 hmid
      subst h1
      exact ⟨Ok.tag t mid hokm, hokb⟩

/-- The bold pass on angle-free input produces only generated tags. -/
theorem bold_ok : ∀ (n : Nat) (l : List Char), l.length ≤ n →
    (∀ c ∈ l, c ≠ '<' ∧ c ≠ '>') → Ok (boldAux l) := by
  intro n
  induction n with
  | zero =>
    intro l hlen _
    have : l = [] := List.eq_nil_of_length_eq_zero (Nat.le_zero.mp hlen)
    subst this
    simpa [boldAux] using Ok.nil
  | succ n ih =>
    intro l hlen hna
    match l with
    | [] => simpa [boldAux] using Ok.nil
    | [c] =>
      have hc := hna c (by simp)
      simpa [boldAux] using Ok.plain c [] hc.1 hc.2 Ok.nil
    | c1 :: c2 :: rest =>
      by_cases hss : c1 = '*' ∧ c2 = '*'
      · cases hsc : starStarClose rest with
        | some p =>
          obtain ⟨inr, rest'⟩ := p
          have hdec := starStarClose_some hsc
          have hnai : ∀ c ∈ inr, c ≠ '<' ∧ c ≠ '>' := by
            intro c hc
            exact hna c (by simp [hdec, hc])
          have hnar : ∀ c ∈ rest', c ≠ '<' ∧ c ≠ '>' := by
            intro c hc
            exact hna c (by simp [hdec, hc])
          have hlr : rest'.length ≤ n := by
            subst hdec
            simp [List.length_append] at hlen
            omega
          rw [boldAux_closed hss hsc, List.append_assoc, List.append_assoc]
          exact Ok.tag Tag.sOpen _ (ok_append (na_ok inr hnai)
            (Ok.tag Tag.sClose _ (ih rest' hlr hnar)))
        | none =>
          have hlr : ('*' :: rest).length ≤ n := by
            simp at hlen ⊢
            omega
          have hnar : ∀ c ∈ ('*' :: rest), c ≠ '<' ∧ c ≠ '>' := by
            intro c hc
            rcases List.mem_cons.mp hc with h1 | h1
            · subst h1; exact ⟨by decide, by decide⟩
            · exact hna c (by simp [h1])
          rw [boldAux_open hss hsc]
          exact Ok.plain '*' _ (by decide) (by decide) (ih _ hlr hnar)
      · have hlr : (c2 :: rest).length ≤ n := by
          simp at hlen ⊢
          omega
        have hnar : ∀ c ∈ (c2 :: rest), c ≠ '<' ∧ c ≠ '>' := by
          intro c hc
          exact hna c (by simp [List.mem_cons.mp hc])
        have hc1 := hna c1 (by simp)
        rw [boldAux_cons hss]
        exact Ok.plain c1 _ hc1.1 hc1.2 (ih _ hlr hnar)

/-- The italic scan walks over star-free stretches untouched. -/
theorem italAux_append_no_star :
    ∀ (a b : List Char), '*' ∉ a → italAux (a ++ b) = a ++ italAux b := by
  intro a
  induction a with
  | nil => simp
  | cons c a2 ih =>
    intro b hmem
    have hc : c ≠ '*' := fun h => hmem (by simp [h])
    rw [List.cons_append, italAux_cons hc,
      ih b (fun hx => hmem (List.mem_cons_of_mem c hx)), List.cons_append]

/-- The italic pass preserves the sanitation invariant. -/
theorem ital_ok : ∀ (n : Nat) (l : List Char), l.length ≤ n → Ok l →
    Ok (italAux l) := by
  intro n
  induction n with
  | zero =>
    intro l hlen _
    have : l = [] := List.eq_nil_of_length_eq_zero (Nat.le_zero.mp hlen)
    subst this
    simpa [italAux] using Ok.nil
  | succ n ih =>
    intro l hlen hok
    cases hok with
    | nil => simpa [italAux] using Ok.nil
    | plain c l0 hlt hgt h0 =>
      by_cases hc : c = '*'
      · subst hc
        cases hsc : starClose l0 with
        | none =>
          rw [italAux_open hsc]
          exact Ok.plain '*' _ (by decide) (by decide)
            (ih l0 (by simp at hlen; omega) h0)
        | some p =>
          obtain ⟨inr, rest'⟩ := p
          obtain ⟨hdec, hstar⟩ := starClose_some hsc
          obtain ⟨hoki, hokr⟩ := ok_split_star h0 inr rest' hdec hstar
          have hlr : rest'.length ≤ n := by
            subst hdec
            simp [List.length_append] at hlen
            omega
          rw [italAux_closed hsc, List.append_assoc, List.append_assoc]
          exact Ok.tag Tag.eOpen _ (ok_append hoki
            (Ok.tag Tag.eClose _ (ih rest' hlr hokr)))
      · rw [italAux_cons hc]
        exact Ok.plain c _ hlt hgt (ih l0 (by simp at hlen; omega) h0)
    | tag t l0 h0 =>
      rw [italAux_append_no_star _ _ (star_not_in_tag t)]
      have hl0 : l0.length ≤ n := by
        have h1 := tag_length_pos t
        simp [List.length_append] at hlen
        omega
      exact Ok.tag t _ (ih l0 hl0 h0)

theorem replaceChar_append (t : Char) (r a b : List Char) :
    replaceChar t r (a ++ b) = replaceChar t r a ++ replaceChar t r b := by
  simp [replaceChar]

theorem replaceChar_skip {t : Char} (r : List Char) :
    ∀ {a : List Char}, t ∉ a → replaceChar t r a = a := by
  intro a
  induction a with
  | nil => intro _; simp [replaceChar]
  | cons c a2 ih =>
    intro h
    have hc : ¬(c = t) := fun hx => h (by simp [hx])
    have h2 := ih (fun hx => h (List.mem_cons_of_mem c hx))
    simp [replaceChar, hc] at h2 ⊢
    exact h2

/-- The newline pass preserves the sanitation invariant. -/
theorem br_ok : ∀ {l : List Char}, Ok l → Ok (brPass l) := by
  intro l h
  induction h with
  | nil => simpa [brPass, replaceChar] using Ok.nil
  | plain c l0 hlt hgt h0 ih =>
    by_cases hc : c = '\n'
    · subst hc
      have heq : brPass ('\n' :: l0) = brTag ++ brPass l0 := by
        simp [brPass, replaceChar]
      rw [heq]
      exact Ok.tag Tag.br _ ih
    · have heq : brPass (c :: l0) = c :: brPass l0 := by
        simp [brPass, replaceChar, hc]
      rw [heq]
      exact Ok.plain c _ hlt hgt ih
  | tag t l0 h0 ih =>
    have heq : brPass (tagChars t ++ l0) = tagChars t ++ brPass l0 := by
      unfold brPass
      rw [replaceChar_append, replaceChar_skip _ (newline_not_in_tag t)]
    rw [heq]
    exact Ok.tag t _ ih

/-! ## Helper lemmas on the decoder and the gate -/

/-- A row cannot start with both `'event: '` and `'data: '`. -/
theorem event_not_data {r : List Char} (h : isEventRow r = true) :
    isDataRow r = false := by
  cases r with
  | nil => simp [isEventRow, eventRowStart, List.isPrefixOf] at h
  | cons c rest =>
    simp [isEventRow, eventRowStart, List.isPrefixOf] at h
    simp [isDataRow, dataRowStart, List.isPrefixOf]
    intro hc
    exact absurd (h.1.trans hc.symm) (by decide)

/-- The row loop is a pair of last-assignment-wins registers: the surviving
`eventType` comes from the last `event: ` row, the surviving `dataContent`
from the last `data: ` row. -/
theorem parseRows_foldl (rows : List (List Char)) :
    ∀ acc : BlockParse,
      rows.foldl parseRow acc =
        { eventType := (lastSuch isEventRow rows).elim acc.eventType
            (fun r => trimChars (r.drop 7)),
          dataContent := (lastSuch isDataRow rows).elim acc.dataContent
            (fun r => r.drop 6) } := by
  induction rows with
  | nil => intro acc; simp [lastSuch]
  | cons r rest ih =>
    intro acc
    rw [List.foldl_cons, ih]
    by_cases her : isEventRow r = true
    · have hdrf := event_not_data her
      rcases hle : lastSuch isEventRow rest with _ | x <;>
        rcases hld : lastSuch isDataRow rest with _ | y <;>
          simp [lastSuch, hle, hld, her, hdrf, parseRow]
    · by_cases hdr : isDataRow r = true
      · rcases hle : lastSuch isEventRow rest with _ | x <;>
          rcases hld : lastSuch isDataRow rest with _ | y <;>
            simp [lastSuch, hle, hld, her, hdr, parseRow]
      · rcases hle : lastSuch isEventRow rest with _ | x <;>
          rcases hld : lastSuch isDataRow rest with _ | y <;>
            simp [lastSuch, hle, hld, her, hdr, parseRow]

/-- The second copy of the row loop is the same pair of last-assignment-wins
registers, with the surviving data payload additionally trimmed. -/
theorem parseRowsTrim_foldl (rows : List (List Char)) :
    ∀ acc : BlockParse,
      rows.foldl parseRowTrim acc =
        { eventType := (lastSuch isEventRow rows).elim acc.eventType
            (fun r => trimChars (r.drop 7)),
          dataContent := (lastSuch isDataRow rows).elim acc.dataContent
            (fun r => trimChars (r.drop 6)) } := by
  induction rows with
  | nil => intro acc; simp [lastSuch]
  | cons r rest ih =>
    intro acc
    rw [List.foldl_cons, ih]
    by_cases her : isEventRow r = true
    · have hdrf := event_not_data her
      rcases hle : lastSuch isEventRow rest with _ | x <;>
        rcases hld : lastSuch isDataRow rest with _ | y <;>
          simp [lastSuch, hle, hld, her, hdrf, parseRowTrim]
    · by_cases hdr : isDataRow r = true
      · rcases hle : lastSuch isEventRow rest with _ | x <;>
          rcases hld : lastSuch isDataRow rest with _ | y <;>
            simp [lastSuch, hle, hld, her, hdr, parseRowTrim]
      · rcases hle : lastSuch isEventRow rest with _ | x <;>
          rcases hld : lastSuch isDataRow rest with _ | y <;>
            simp [lastSuch, hle, hld, her, hdr, parseRowTrim]

/-- Cooldown rejection: only the status text changes. -/
theorem handleTextInput_cooldown {st : UIState} {now : Nat} (v : String)
    (h : now - st.lastRequestTime < COOLDOWN_MS) :
    handleTextInput st now v = { st with statusBreather := true } := by
  simp [handleTextInput, h]

/-- Validation rejection: the state is untouched. -/
theorem handleTextInput_short {st : UIState} {now : Nat} {v : String}
    (h1 : ¬ now - st.lastRequestTime < COOLDOWN_MS)
    (h2 : typedText v = "" ∨ (typedText v).length < 2) :
    handleTextInput st now v = st := by
  simp only [handleTextInput]
  rw [if_neg h1, if_pos h2]

/-- In-flight rejection: the state is untouched. -/
theorem handleTextInput_busy {st : UIState} {now : Nat} {v : String}
    (h1 : ¬ now - st.lastRequestTime < COOLDOWN_MS)
    (h2 : ¬ (typedText v = "" ∨ (typedText v).length < 2))
    (h3 : st.isProcessing = true) :
    handleTextInput st now v = st := by
  simp only [handleTextInput]
  rw [if_neg h1, if_neg h2, if_pos h3]

/-- Typed acceptance: record the request time and the retry text, mark busy,
submit. -/
theorem handleTextInput_accepted {st : UIState} {now : Nat} {v : String}
    (h1 : ¬ now - st.lastRequestTime < COOLDOWN_MS)
    (h2 : ¬ (typedText v = "" ∨ (typedText v).length < 2))
    (h3 : st.isProcessing = false) :
    handleTextInput st now v =
      { st with
          isProcessing := true
          lastRequestTime := now
          lastUserText := typedText v
          sentAt := st.sentAt ++ [(now, typedText v)] } := by
  simp only [handleTextInput]
  rw [if_neg h1, if_neg h2, if_neg (by simp [h3])]
  simp [sendMessageEntry, h3]

/-- Voice acceptance: clear the capture buffers, mark busy, submit; neither
`lastRequestTime` nor `lastUserText` moves. -/
theorem submitVoiceInput_accepted {st : UIState} {now : Nat}
    (h1 : st.isProcessing = false) (h2 : 0 < (voiceText st).length) :
    submitVoiceInput st now =
      { st with
          transcriptBuffer := ""
          latestInterim := ""
          isListening := false
          isProcessing := true
          sentAt := st.sentAt ++ [(now, voiceText st)] } := by
  simp only [submitVoiceInput]
  rw [if_pos h2]
  simp [sendMessageEntry, h1]

/-! ## The claims -/

/-- C1: the spec demands chunk-boundary invariance of the stream decoder — a
block split across two reads must be buffered until its boundary appears.
The loop of `sendMessageToAI` keeps no carry-over buffer, so the same bytes
delivered as `'data: hel'` + `'lo\n\n'` decode to the delta `'hel'` (the
trailing `'lo'` is dropped), while the single chunk `'data: hello\n\n'`
decodes to `'hello'`: the claimed invariance fails at this partition. -/
theorem c1_chunk_boundary_broken :
    decodeStream ["data: hel".data, "lo\n\n".data]
        = [SseEvent.textDelta "hel".data, SseEvent.doneEvt] ∧
      decodeStream [("data: hel".data ++ "lo\n\n".data)]
        = [SseEvent.textDelta "hello".data, SseEvent.doneEvt] ∧
      decodeStream ["data: hel".data, "lo\n\n".data]
        ≠ decodeStream [("data: hel".data ++ "lo\n\n".data)] := by
  refine ⟨by decide, by decide, by decide⟩

/-- C2 (counterexample): the payload of a block is not the concatenation of
its `data:` lines — on the block `'data: a\ndata: b'` the loop keeps only
`'b'` while the claimed concatenation is `'ab'`. -/
theorem c2_counterexample :
    ¬ (∀ rows : List (List Char),
        (parseRows rows).dataContent = specDataConcat rows) := by
  intro h
  have := h (splitNl "data: a\ndata: b".data)
  revert this
  decide

/-- C2 (amended): within a block the last `event:` line sets the event type
(default `'message'`) and the LAST `data:` line — not the concatenation —
sets the payload.  The two copies of the decoder disagree on the payload
itself: the first copy (lines 514-543) keeps the line minus its prefix
verbatim, internal and surrounding whitespace included, while the second
copy (lines 1331-1360) additionally trims it, so only internal whitespace
reaches the message.  In both copies every non-empty payload under the
default event type other than the `'[DONE]'` sentinel is emitted as a text
delta and appended to the running assistant message. -/
theorem c2_last_assignment (rows : List (List Char)) (block p pt : List Char)
    (hblank : trimChars block ≠ [])
    (hsess : (parseRows (splitNl block)).eventType ≠ "session_id".data)
    (hdata : (parseRows (splitNl block)).dataContent = p)
    (hne : p ≠ []) (hdone : p ≠ "[DONE]".data)
    (hsess2 : (parseRowsTrim (splitNl block)).eventType ≠ "session_id".data)
    (hdata2 : (parseRowsTrim (splitNl block)).dataContent = pt)
    (hne2 : pt ≠ []) (hdone2 : pt ≠ "[DONE]".data) :
    parseRows rows =
      { eventType := (lastSuch isEventRow rows).elim "message".data
          (fun r => trimChars (r.drop 7)),
        dataContent := (lastSuch isDataRow rows).elim []
          (fun r => r.drop 6) } ∧
    parseRowsTrim rows =
      { eventType := (lastSuch isEventRow rows).elim "message".data
          (fun r => trimChars (r.drop 7)),
        dataContent := (lastSuch isDataRow rows).elim []
          (fun r => trimChars (r.drop 6)) } ∧
    blockEvents block = [SseEvent.textDelta p] ∧
    blockEventsTrim block = [SseEvent.textDelta pt] ∧
    (∀ (es : List SseEvent) (q : List Char),
        runText (es ++ [SseEvent.textDelta q]) = runText es ++ q) := by
  refine ⟨parseRows_foldl rows _, parseRowsTrim_foldl rows _, ?_, ?_, ?_⟩
  · simp [blockEvents, hblank, hsess, hdata, hne, hdone]
  · simp [blockEventsTrim, hblank, hsess2, hdata2, hne2, hdone2]
  · intro es q
    simp [runText]

/-- C2 (witness): the amended statement at the two-data-line block and at a
payload carrying leading, internal and trailing whitespace — the first copy
emits it verbatim as `' spaced  '`, the second copy emits the trimmed
`'spaced'`. -/
theorem c2_last_assignment_witness :
    parseRows (splitNl "data: a\ndata: b".data) =
      { eventType := (lastSuch isEventRow (splitNl "data: a\ndata: b".data)).elim
          "message".data (fun r => trimChars (r.drop 7)),
        dataContent := (lastSuch isDataRow (splitNl "data: a\ndata: b".data)).elim
          [] (fun r => r.drop 6) } ∧
    parseRowsTrim (splitNl "data: a\ndata: b".data) =
      { eventType := (lastSuch isEventRow (splitNl "data: a\ndata: b".data)).elim
          "message".data (fun r => trimChars (r.drop 7)),
        dataContent := (lastSuch isDataRow (splitNl "data: a\ndata: b".data)).elim
          [] (fun r => trimChars (r.drop 6)) } ∧
    blockEvents "data:  spaced  ".data
      = [SseEvent.textDelta " spaced  ".data] ∧
    blockEventsTrim "data:  spaced  ".data
      = [SseEvent.textDelta "spaced".data] ∧
    (∀ (es : List SseEvent) (q : List Char),
        runText (es ++ [SseEvent.textDelta q]) = runText es ++ q) := by
  obtain ⟨h1, h2, h3, h4, h5⟩ := c2_last_assignment
    (splitNl "data: a\ndata: b".data) "data:  spaced  ".data
    " spaced  ".data "spaced".data
    (by decide) (by decide) (by decide) (by decide) (by decide)
    (by decide) (by decide) (by decide) (by decide)
  exact ⟨h1, h2, h3, h4, h5⟩

/-- C3: every execution of `sendMessageToAI` that passes the in-flight
guard — whatever the outcome of the `try` block (success, any non-2xx
status, network failure, timeout abort, or a throw while decoding the stream
mid-way) — ends with the busy flag cleared and the inputs re-enabled,
because the `finally` block runs on every path. -/
theorem c3_cleanup (st : AppState) (o : FetchOutcome)
    (h : st.isProcessing = false) :
    (sendMessageToAI st o).isProcessing = false ∧
      (sendMessageToAI st o).inputEnabled = true := by
  cases o <;> simp [sendMessageToAI, h, sendStart, tryBranch, catchBranch]

/-- C3 (witness): the cleanup at a concrete idle state and the timeout
outcome. -/
theorem c3_cleanup_witness :
    (sendMessageToAI ⟨false, true, false, [], false, false⟩
        FetchOutcome.abortTimeout).isProcessing = false ∧
      (sendMessageToAI ⟨false, true, false, [], false, false⟩
        FetchOutcome.abortTimeout).inputEnabled = true :=
  c3_cleanup _ _ rfl

/-- A state with a queued segment, playing audio and active synthesis, as a
new submission may find it. -/
def busyAudioDemo : AppState :=
  { isProcessing := false, inputEnabled := true, typingShown := false,
    audioQueue := ["Old sentence.".data], audioPlaying := true,
    speechSynthActive := true }

/-- C4 (counterexample): starting a new exchange does not stop the playing
audio, does not cancel the speech synthesis and does not clear the queue —
at `busyAudioDemo` the queue is still non-empty after `sendStart`. -/
theorem c4_counterexample :
    ¬ (∀ st : AppState, st.isProcessing = false →
        (sendStart st).audioQueue = [] ∧ (sendStart st).audioPlaying = false ∧
          (sendStart st).speechSynthActive = false) := by
  intro h
  have := h busyAudioDemo rfl
  simp [sendStart, busyAudioDemo] at this

/-- C4 (amended): the entry of `sendMessageToAI` leaves the audio queue, the
playing audio and the speech synthesis exactly as it found them, so queued
or playing audio from a previous turn keeps playing after a new submission
starts. -/
theorem c4_audio_untouched (st : AppState) :
    (sendStart st).audioQueue = st.audioQueue ∧
      (sendStart st).audioPlaying = st.audioPlaying ∧
      (sendStart st).speechSynthActive = st.speechSynthActive := by
  simp [sendStart]

/-- The first segment of the drain starts when the drain starts. -/
theorem processAudioQueue_head_start (t : Nat) (q : List ChunkResult)
    (h : 0 < (processAudioQueue t q).length) :
    (processAudioQueue t q)[0].start = t := by
  cases q with
  | nil => simp [processAudioQueue] at h
  | cons r rest => cases r <;> simp [processAudioQueue]

/-- C5 (counterexample): segment `i+1` can begin before segment `i` is fully
over.  With segment 0 failing (its fallback synthesis lasting 5 units) and
segment 1 succeeding, segment 1 starts at instant 0 while the fallback of
segment 0 is still speaking until instant 5 — because `playAudioChunk`
resolves immediately after starting `fallbackToBrowserTTS` instead of
awaiting it. -/
theorem c5_counterexample :
    ¬ (∀ (t : Nat) (q : List ChunkResult) (i : Nat)
        (h1 : i < (processAudioQueue t q).length)
        (h2 : i + 1 < (processAudioQueue t q).length),
        segFinish ((processAudioQueue t q).get ⟨i, h1⟩) ≤
          ((processAudioQueue t q).get ⟨i + 1, h2⟩).start) := by
  intro h
  have := h 0 [ChunkResult.err 5, ChunkResult.ok 2] 0 (by decide) (by decide)
  revert this
  decide

/-- C5 (amended): backend playback itself is serialized — segment `i+1`
starts exactly when the promise of segment `i` resolves, which is no earlier
than the start of segment `i`; only the fallback browser
synthesis is started without being awaited. -/
theorem c5_backend_serialized (t : Nat) (q : List ChunkResult) (i : Nat)
    (h1 : i < (processAudioQueue t q).length)
    (h2 : i + 1 < (processAudioQueue t q).length) :
    ((processAudioQueue t q).get ⟨i + 1, h2⟩).start
        = ((processAudioQueue t q).get ⟨i, h1⟩).resolve ∧
      ((processAudioQueue t q).get ⟨i, h1⟩).start ≤
        ((processAudioQueue t q).get ⟨i, h1⟩).resolve := by
  induction q generalizing t i with
  | nil => simp [processAudioQueue] at h1
  | cons r rest ih =>
    cases i with
    | zero =>
      cases r with
      | ok dur =>
        have hlen : 0 < (processAudioQueue (t + dur) rest).length := by
          simp [processAudioQueue] at h2
          omega
        simp [processAudioQueue, List.get]
        exact processAudioQueue_head_start (t + dur) rest hlen
      | err fb =>
        have hlen : 0 < (processAudioQueue t rest).length := by
          simp [processAudioQueue] at h2
          omega
        simp [processAudioQueue, List.get]
        exact processAudioQueue_head_start t rest hlen
    | succ n =>
      cases r with
      | ok dur =>
        have g1 : n < (processAudioQueue (t + dur) rest).length := by
          simp [processAudioQueue] at h1; omega
        have g2 : n + 1 < (processAudioQueue (t + dur) rest).length := by
          simp [processAudioQueue] at h2; omega
        simpa [processAudioQueue, List.get] using ih (t + dur) n g1 g2
      | err fb =>
        have g1 : n < (processAudioQueue t rest).length := by
          simp [processAudioQueue] at h1; omega
        have g2 : n + 1 < (processAudioQueue t rest).length := by
          simp [processAudioQueue] at h2; omega
        simpa [processAudioQueue, List.get] using ih t n g1 g2

/-- C5 (witness): the serialization at a concrete two-segment drain. -/
theorem c5_backend_serialized_witness :
    ((processAudioQueue 0 [ChunkResult.ok 3, ChunkResult.ok 2]).get
        ⟨1, by decide⟩).start
      = ((processAudioQueue 0 [ChunkResult.ok 3, ChunkResult.ok 2]).get
        ⟨0, by decide⟩).resolve ∧
    ((processAudioQueue 0 [ChunkResult.ok 3, ChunkResult.ok 2]).get
        ⟨0, by decide⟩).start ≤
      ((processAudioQueue 0 [ChunkResult.ok 3, ChunkResult.ok 2]).get
        ⟨0, by decide⟩).resolve :=
  c5_backend_serialized 0 [ChunkResult.ok 3, ChunkResult.ok 2] 0
    (by decide) (by decide)

/-- A capture session holding the single character `'a'`. -/
def voiceSingleChar : UIState := { initGate with transcriptBuffer := "a" }

/-- C6 (counterexample): the voice path submits a one-character utterance —
`submitVoiceInput` only requires `text.length > 0`, so the claim that no
path ever submits a trimmed text shorter than 2 characters is false. -/
theorem c6_counterexample :
    ¬ ((∀ (st : UIState) (now : Nat) (v : String),
          ∀ p ∈ (handleTextInput st now v).sentAt.drop st.sentAt.length,
            2 ≤ p.2.length) ∧
       (∀ (st : UIState) (now : Nat),
          ∀ p ∈ (submitVoiceInput st now).sentAt.drop st.sentAt.length,
            2 ≤ p.2.length)) := by
  intro h
  have := h.2 voiceSingleChar 3000 (3000, "a") (by decide)
  revert this
  decide

/-- C6 (amended): the typed path never submits a trimmed text shorter than
2 characters, while the voice path guarantees only non-emptiness (length at
least 1). -/
theorem c6_min_length (st : UIState) (now : Nat) (v : String) :
    (∀ p ∈ (handleTextInput st now v).sentAt.drop st.sentAt.length,
        2 ≤ p.2.length) ∧
    (∀ p ∈ (submitVoiceInput st now).sentAt.drop st.sentAt.length,
        1 ≤ p.2.length) := by
  constructor
  · intro p hp
    by_cases h1 : now - st.lastRequestTime < COOLDOWN_MS
    · rw [handleTextInput_cooldown v h1] at hp
      simp [List.drop_length] at hp
    · by_cases h2 : typedText v = "" ∨ (typedText v).length < 2
      · rw [handleTextInput_short h1 h2] at hp
        simp [List.drop_length] at hp
      · by_cases h3 : st.isProcessing
        · rw [handleTextInput_busy h1 h2 h3] at hp
          simp [List.drop_length] at hp
        · rw [handleTextInput_accepted h1 h2 (by simpa using h3)] at hp
          simp [List.drop_left] at hp
          subst hp
          push_neg at h2
          exact h2.2
  · intro p hp
    by_cases h2 : (voiceText st).length > 0
    · by_cases h1 : st.isProcessing
      · simp only [submitVoiceInput] at hp
        rw [if_pos h2] at hp
        simp [sendMessageEntry, h1, List.drop_length] at hp
      · rw [submitVoiceInput_accepted (by simpa using h1) h2] at hp
        simp [List.drop_left] at hp
        subst hp
        exact h2
    · simp only [submitVoiceInput] at hp
      rw [if_neg h2] at hp
      simp [List.drop_length] at hp

/-- C6 (witness): the amended statement at a typed `'hello'` and the voiced
single character `'a'`. -/
theorem c6_min_length_witness :
    2 ≤ (5000, ("hello" : String)).2.length ∧
      1 ≤ (3000, ("a" : String)).2.length :=
  ⟨(c6_min_length initGate 5000 "hello").1 (5000, "hello") (by decide),
   (c6_min_length voiceSingleChar 3000 "x").2 (3000, "a") (by decide)⟩

/-- C7 (counterexample): the cooldown does not govern every submission.  A
typed submission accepted at instant 5000, the exchange finishing, and a
voice submission arriving at 5100 — 100 ms later, far inside
`COOLDOWN_MS = 2000` — are BOTH accepted, because `submitVoiceInput` calls
`sendMessageToAI` without any cooldown check. -/
theorem c7_counterexample :
    ¬ (∀ es : List GateEvent,
        timesSorted (eventTimes es) = true →
        cooldownSepB (runGate initGate es).sentAt = true) := by
  intro h
  have := h [GateEvent.typed 5000 "hello there", GateEvent.finished,
    GateEvent.voice 5100 "hi friend" ""] (by decide)
  revert this
  decide

/-- C7 (amended): only typed submissions are subject to the cooldown: a
typed submission within `COOLDOWN_MS` of the recorded last-request time is
rejected with only the status text changed — mutating neither
`isProcessing` nor `lastRequestTime` — while a voice submission bypasses the
cooldown entirely and is accepted whenever no exchange is in flight and the
utterance is non-empty. -/
theorem c7_typed_cooldown :
    (∀ (st : UIState) (now : Nat) (v : String),
        now - st.lastRequestTime < COOLDOWN_MS →
        handleTextInput st now v = { st with statusBreather := true }) ∧
    (∀ (st : UIState) (now : Nat),
        st.isProcessing = false → 0 < (voiceText st).length →
        (submitVoiceInput st now).sentAt = st.sentAt ++ [(now, voiceText st)]) := by
  constructor
  · intro st now v h
    exact handleTextInput_cooldown v h
  · intro st now h1 h2
    rw [submitVoiceInput_accepted h1 h2]

/-- A capture session holding `'hi there'`. -/
def voiceDemo : UIState := { initGate with transcriptBuffer := "hi there" }

/-- C7 (witness): the cooldown rejection at instant 100 and the voice
acceptance at a concrete capture state. -/
theorem c7_typed_cooldown_witness :
    handleTextInput initGate 100 "hello"
        = { initGate with statusBreather := true } ∧
      (submitVoiceInput voiceDemo 5100).sentAt
        = voiceDemo.sentAt ++ [(5100, voiceText voiceDemo)] :=
  ⟨c7_typed_cooldown.1 initGate 100 "hello" (by decide),
   c7_typed_cooldown.2 voiceDemo 5100 (by decide) (by decide)⟩

/-- C8: the persistence of the session identifier is broken by a storage-key
mismatch: the `session_id` stream event updates the in-memory id and writes
it under `'memo_session_id'`, but the next process start reads
`'memodiary_user_id'` — so after the update on empty storage the reload
finds nothing. -/
theorem c8_persistence_key_mismatch :
    (applyEvents ⟨none, []⟩
        (decodeStream ["event: session_id\ndata: abc123\n\n".data])).sessionId
      = some "abc123" ∧
    loadSessionId (applyEvents ⟨none, []⟩
        (decodeStream ["event: session_id\ndata: abc123\n\n".data])).store
      = none ∧
    sessionStoreKey ≠ sessionLoadKey := by
  refine ⟨by decide, by decide, by decide⟩

/-- A state recording a previous typed utterance while a voice capture holds
`'hi there'`. -/
def voiceAfterTyped : UIState :=
  { initGate with lastUserText := "old words", transcriptBuffer := "hi there" }

/-- C9 (counterexample): an accepted voice submission does not become the
retained last utterance — at `voiceAfterTyped` the voice path submits
`'hi there'` yet `lastUserText` still holds the older typed `'old words'`. -/
theorem c9_counterexample :
    ¬ ((∀ (st : UIState) (now : Nat) (v : String),
          ∀ p ∈ (handleTextInput st now v).sentAt.drop st.sentAt.length,
            (handleTextInput st now v).lastUserText = p.2) ∧
       (∀ (st : UIState) (now : Nat),
          ∀ p ∈ (submitVoiceInput st now).sentAt.drop st.sentAt.length,
            (submitVoiceInput st now).lastUserText = p.2)) := by
  intro h
  have := h.2 voiceAfterTyped 3000 (3000, "hi there") (by decide)
  revert this
  decide

/-- A state whose retained utterance is `'hello again'`. -/
def retryDemo : UIState := { initGate with lastUserText := "hello again" }

/-- C9 (amended): only the typed path records the submitted utterance in
`lastUserText`; the voice path leaves it unchanged; a retry resubmits
exactly the retained text — hence the most recent typed utterance, not
necessarily the most recent submission. -/
theorem c9_retry_text (st : UIState) (now : Nat) (v : String) :
    (∀ p ∈ (handleTextInput st now v).sentAt.drop st.sentAt.length,
        (handleTextInput st now v).lastUserText = p.2) ∧
    (submitVoiceInput st now).lastUserText = st.lastUserText ∧
    (st.lastUserText ≠ "" → st.isProcessing = false →
      (retryLastMessage st now).sentAt = st.sentAt ++ [(now, st.lastUserText)]) := by
  refine ⟨?_, ?_, ?_⟩
  · intro p hp
    by_cases h1 : now - st.lastRequestTime < COOLDOWN_MS
    · rw [handleTextInput_cooldown v h1] at hp
      simp [List.drop_length] at hp
    · by_cases h2 : typedText v = "" ∨ (typedText v).length < 2
      · rw [handleTextInput_short h1 h2] at hp
        simp [List.drop_length] at hp
      · by_cases h3 : st.isProcessing
        · rw [handleTextInput_busy h1 h2 h3] at hp
          simp [List.drop_length] at hp
        · rw [handleTextInput_accepted h1 h2 (by simpa using h3)] at hp ⊢
          simp [List.drop_left] at hp
          simp [hp]
  · by_cases h2 : (voiceText st).length > 0
    · by_cases h1 : st.isProcessing
      · simp only [submitVoiceInput]
        rw [if_pos h2]
        simp [sendMessageEntry, h1]
      · rw [submitVoiceInput_accepted (by simpa using h1) h2]
    · simp only [submitVoiceInput]
      rw [if_neg h2]
  · intro h1 h2
    simp [retryLastMessage, h1, sendMessageEntry, h2]

/-- C9 (witness): the amended statement at a typed acceptance and at a retry
of `'hello again'`. -/
theorem c9_retry_text_witness :
    (handleTextInput initGate 5000 "hello").lastUserText
        = ((5000, ("hello" : String)) : Nat × String).2 ∧
      (retryLastMessage retryDemo 9000).sentAt
        = retryDemo.sentAt ++ [(9000, retryDemo.lastUserText)] :=
  ⟨(c9_retry_text initGate 5000 "hello").1 (5000, "hello") (by decide),
   (c9_retry_text retryDemo 9000 "x").2.2 (by decide) (by decide)⟩

/-- A raw `<b>` tag survives the first formatter untouched, so its output is
not sanitized. -/
theorem not_ok_rawTag : ¬ Ok ['<', 'b', '>', 'h', 'i'] := by
  intro h
  generalize hgen : (['<', 'b', '>', 'h', 'i'] : List Char) = m at h
  cases h with
  | nil => simp at hgen
  | plain c2 l2 hlt hgt h0 =>
    injection hgen with h1 h2
    exact hlt h1.symm
  | tag t l0 h0 =>
    cases t <;> simp [tagChars, strongOpenTag, strongCloseTag, emOpenTag,
      emCloseTag, brTag] at hgen

/-- C10 (counterexample): not every `formatMessage` of the repository
escapes before rewriting — the copy at lines 752-768 performs no escaping,
so the input `'<b>hi'` flows through to the output as a raw tag the
formatter did not generate. -/
theorem c10_counterexample :
    ¬ (∀ l : List Char, Ok (formatMessageLegacy l) ∧ Ok (formatMessage l)) := by
  intro h
  have h1 := (h "<b>hi".data).1
  have heval : formatMessageLegacy "<b>hi".data = ['<', 'b', '>', 'h', 'i'] := by
    simp [formatMessageLegacy, boldAux, italAux, linkAux, brPass, replaceChar,
      starStarClose, starClose, linkTextClose, linkUrlClose, brTag]
  rw [heval] at h1
  exact not_ok_rawTag h1

/-- C10 (amended): the `formatMessage` at lines 1569-1588 HTML-escapes `&`,
`<`, `>`, `"` and the apostrophe before its bold/italic/newline rewriting,
so for every input every angle bracket of its output lies inside a tag the
formatter itself generated (`<strong>`, `</strong>`, `<em>`, `</em>`,
`<br>`). -/
theorem c10_escaped_formatter_sanitized (l : List Char) :
    Ok (formatMessage l) :=
  br_ok (ital_ok (boldAux (escapeHtml l)).length (boldAux (escapeHtml l))
    le_rfl (bold_ok (escapeHtml l).length (escapeHtml l) le_rfl
      (escapeHtml_na l)))

end MemoDiary

